import Mathlib

/-
  Verification development for the 3DSE (3DS Everything) repository.

  The Python sources (src/_3dse_core.py, src/gui_app.py) are shallowly
  embedded below.  Filesystems are modelled as finite named trees
  (`Entry`/`EntryList`), file contents as strings, and the network and
  archive-extraction steps of the update executors as an abstract
  `DownloadResult` input (the executors' behaviour after the HTTP layer is a
  pure function of the extracted tree, the advertised content length, and the
  received chunk sizes).  Progress callbacks are modelled by returning the
  list of emitted `ProgressEvent`s.

  Modelling conventions (deviations from low-level Python detail, each noted
  again at the definition it concerns):
  * machine paths use '/' as separator (os.path.join);
  * Python `int()` parsing is modelled for ASCII digit strings (optional
    surrounding whitespace, optional sign, digits with single underscores
    between digits); non-ASCII decimal digits are out of scope;
  * float percentage arithmetic `int((a / b) * k)` is modelled as exact
    natural division `k * a / b`, which agrees with the float computation up
    to rounding at representation boundaries and preserves monotonicity;
  * the human-readable megabyte counts inside download progress messages are
    abstracted to a fixed message text (the message content of those events
    is never branched on).
-/

namespace ThreeDSE

/-! ## Version comparator (src/_3dse_core.py, `compare_versions`)

`parse_version` mirrors the inner helper of `compare_versions`:
`re.sub(r'^[^\d.]*|[^\d.]*$', '', s)` removes the maximal leading and
trailing runs of characters that are neither ASCII digits nor '.', the
result is split on '.', and every segment is parsed with Python `int`;
a `ValueError` in any segment yields the empty list. -/

def isVerChar (c : Char) : Bool := c.isDigit || c == '.'

/-- Characters stripped by Python `str.strip()` / accepted around `int()`
input (ASCII whitespace). -/
def isPySpace (c : Char) : Bool :=
  c == ' ' || c == '\t' || c == '\n' || c == '\r' || c == '\x0b' || c == '\x0c'

/-- Remove the maximal run of characters satisfying `p` from both ends. -/
def stripOuter (p : Char → Bool) (cs : List Char) : List Char :=
  ((cs.dropWhile p).reverse.dropWhile p).reverse

/-- Digits of a Python integer literal after the first one: digit runs with
single underscores strictly between digits. -/
def pyNatAux : List Char → Nat → Option Nat
  | [], acc => some acc
  | c :: rest, acc =>
    if c.isDigit then pyNatAux rest (acc * 10 + (c.toNat - 48))
    else if c == '_' then
      match rest with
      | d :: rest2 =>
        if d.isDigit then pyNatAux rest2 (acc * 10 + (d.toNat - 48)) else none
      | [] => none
    else none

def pyNat : List Char → Option Nat
  | [] => none
  | c :: rest => if c.isDigit then pyNatAux rest (c.toNat - 48) else none

/-- Python `int(s)` on a string segment: optional surrounding whitespace,
optional single sign, then digits (ASCII model). -/
def pyInt (cs : List Char) : Option Int :=
  match stripOuter isPySpace cs with
  | '+' :: rest => (pyNat rest).map Int.ofNat
  | '-' :: rest => (pyNat rest).map (fun n => -(Int.ofNat n))
  | rest => (pyNat rest).map Int.ofNat

/-- `str.split(sep)` for a single-character separator; on the empty string it
returns `[[]]`, as Python does. -/
def splitOnChar (sep : Char) : List Char → List (List Char)
  | [] => [[]]
  | c :: rest =>
    if c = sep then [] :: splitOnChar sep rest
    else
      match splitOnChar sep rest with
      | s :: ss => (c :: s) :: ss
      | [] => [[c]]

/-- `compare_versions.parse_version`. -/
def parse_version (version_str : String) : List Int :=
  let stripped := stripOuter (fun c => !isVerChar c) version_str.data
  match (splitOnChar '.' stripped).mapM pyInt with
  | some parts => parts
  | none => []

/-- The comparison loop of `compare_versions`: for each index of the supplied
range, compare the zero-padded components and stop at the first difference. -/
def cmpRange (local_parts latest_parts : List Int) : List Nat → Int
  | [] => 0
  | i :: rest =>
    let local_part := local_parts.getD i 0
    let latest_part := latest_parts.getD i 0
    if local_part < latest_part then -1
    else if local_part > latest_part then 1
    else cmpRange local_parts latest_parts rest

/-- `compare_versions` (src/_3dse_core.py lines 12-38). -/
def compare_versions (local_version latest_version : String) : Int :=
  let local_parts := parse_version local_version
  let latest_parts := parse_version latest_version
  cmpRange local_parts latest_parts
    (List.range (max local_parts.length latest_parts.length))

/-- Comparison as worded by the spec: zero-pad to the longer length and
return -1/0/1 according to the first differing component.  (Spec-side
definition, to be compared with the implementation.) -/
def cmpSpecParts (l1 l2 : List Int) : Int :=
  match (List.range (max l1.length l2.length)).find?
      (fun i => l1.getD i 0 != l2.getD i 0) with
  | some i => if l1.getD i 0 < l2.getD i 0 then -1 else 1
  | none => 0

def compareSpec (a b : String) : Int :=
  cmpSpecParts (parse_version a) (parse_version b)

theorem cmpRange_eq_find (l1 l2 : List Int) (is : List Nat) :
    cmpRange l1 l2 is =
      (match is.find? (fun i => l1.getD i 0 != l2.getD i 0) with
       | some i => if l1.getD i 0 < l2.getD i 0 then -1 else 1
       | none => 0) := by
  induction is with
  | nil => rfl
  | cons i rest ih =>
    by_cases h : l1.getD i 0 = l2.getD i 0
    · have hb : (l1.getD i 0 != l2.getD i 0) = false := by
        rw [bne_eq_false_iff_eq]; exact h
      have h1 : ¬ l1.getD i 0 < l2.getD i 0 := by rw [h]; exact lt_irrefl _
      have h2 : ¬ l1.getD i 0 > l2.getD i 0 := by
        rw [gt_iff_lt, h]; exact lt_irrefl _
      calc cmpRange l1 l2 (i :: rest)
          = cmpRange l1 l2 rest := by
            show (if l1.getD i 0 < l2.getD i 0 then (-1 : Int)
              else if l1.getD i 0 > l2.getD i 0 then 1
              else cmpRange l1 l2 rest) = _
            rw [if_neg h1, if_neg h2]
        _ = _ := by rw [ih, List.find?_cons, hb]
    · have hb : (l1.getD i 0 != l2.getD i 0) = true := bne_iff_ne.mpr h
      rw [List.find?_cons, hb]
      rcases lt_or_gt_of_ne h with hlt | hgt
      · show (if l1.getD i 0 < l2.getD i 0 then (-1 : Int)
          else if l1.getD i 0 > l2.getD i 0 then 1
          else cmpRange l1 l2 rest) =
            (if l1.getD i 0 < l2.getD i 0 then (-1 : Int) else 1)
        rw [if_pos hlt, if_pos hlt]
      · have hnlt : ¬ l1.getD i 0 < l2.getD i 0 := not_lt_of_gt hgt
        show (if l1.getD i 0 < l2.getD i 0 then (-1 : Int)
          else if l1.getD i 0 > l2.getD i 0 then 1
          else cmpRange l1 l2 rest) =
            (if l1.getD i 0 < l2.getD i 0 then (-1 : Int) else 1)
        rw [if_neg hnlt, if_pos hgt, if_neg hnlt]

theorem cmpRange_trichotomy (l1 l2 : List Int) (is : List Nat) :
    cmpRange l1 l2 is = -1 ∨ cmpRange l1 l2 is = 0 ∨ cmpRange l1 l2 is = 1 := by
  induction is with
  | nil => simp [cmpRange]
  | cons i rest ih =>
    simp only [cmpRange]
    split
    · exact Or.inl rfl
    · split
      · exact Or.inr (Or.inr rfl)
      · exact ih

/-- C2: `compare_versions` strips leading and trailing non-digit/non-dot
characters, splits on '.', parses integer segments, and compares
component-wise with zero padding, returning -1/0/1 at the first differing
component and 0 otherwise; in particular the four concrete comparisons of
the spec hold. -/
theorem compare_versions_correct :
    (∀ a b, compare_versions a b = compareSpec a b) ∧
    compare_versions "1.2.3" "1.2.4" = -1 ∧
    compare_versions "1.10.0" "1.9.9" = 1 ∧
    compare_versions "2.0" "2.0.0" = 0 ∧
    compare_versions "v1.2.3-rc" "1.2.3" = 0 := by
  refine ⟨fun a b => ?_, by decide, by decide, by decide, by decide⟩
  unfold compare_versions compareSpec cmpSpecParts
  exact cmpRange_eq_find _ _ _

/-- C10: `compare_versions` is total on strings: it always returns exactly
one of -1, 0, 1 (segment parse failures are absorbed inside `parse_version`
as the empty component list rather than propagating). -/
theorem compare_versions_total (a b : String) :
    compare_versions a b = -1 ∨ compare_versions a b = 0 ∨
      compare_versions a b = 1 := by
  unfold compare_versions
  exact cmpRange_trichotomy _ _ _

theorem cmpRange_map_succ (a : Int) (l : List Int) (is : List Nat) :
    cmpRange [] (a :: l) (is.map Nat.succ) = cmpRange [] l is := by
  induction is with
  | nil => rfl
  | cons i rest ih =>
    simp only [List.map_cons, cmpRange, List.getD_nil, List.getD_cons_succ]
    split
    · rfl
    · split
      · rfl
      · exact ih

theorem cmpRange_nil_left (l : List Int) :
    cmpRange [] l (List.range l.length) =
      (match l.find? (fun x => x != 0) with
       | some x => if 0 < x then -1 else 1
       | none => 0) := by
  induction l with
  | nil => rfl
  | cons a l ih =>
    rw [List.length_cons, List.range_succ_eq_map, List.find?_cons]
    by_cases h : a = 0
    · subst h
      have hb : ((0 : Int) != 0) = false := by rw [bne_eq_false_iff_eq]
      rw [hb]
      show (if (0 : Int) < 0 then (-1 : Int) else if (0 : Int) > 0 then 1
        else cmpRange [] (0 :: l) ((List.range l.length).map Nat.succ)) = _
      rw [if_neg (lt_irrefl 0), if_neg (lt_irrefl 0), cmpRange_map_succ]
      exact ih
    · have hb : (a != (0 : Int)) = true := bne_iff_ne.mpr h
      rw [hb]
      rcases lt_or_gt_of_ne (Ne.symm h) with hlt | hgt
      · show (if (0 : Int) < a then (-1 : Int) else if (0 : Int) > a then 1
          else cmpRange [] (a :: l) ((List.range l.length).map Nat.succ)) =
            (if (0 : Int) < a then (-1 : Int) else 1)
        rw [if_pos hlt, if_pos hlt]
      · have hnlt : ¬ (0 : Int) < a := not_lt_of_gt hgt
        show (if (0 : Int) < a then (-1 : Int) else if (0 : Int) > a then 1
          else cmpRange [] (a :: l) ((List.range l.length).map Nat.succ)) =
            (if (0 : Int) < a then (-1 : Int) else 1)
        rw [if_neg hnlt, if_pos hgt, if_neg hnlt]

/-- C3 (amended): a string whose parsing fails is treated as version `[]`
and compares as all-zero, so it is older than any version whose first
nonzero parsed component is positive.  (It compares as *equal*, not older,
to versions that parse to all zeros, such as "0.0.0".) -/
theorem malformed_older_than_positive (m v : String) (x : Int)
    (hm : parse_version m = [])
    (hv : (parse_version v).find? (fun y => y != 0) = some x)
    (hx : 0 < x) :
    compare_versions m v = -1 := by
  unfold compare_versions
  rw [hm]
  simp only [List.length_nil, Nat.zero_max]
  rw [cmpRange_nil_left, hv]
  simp [hx]

theorem malformed_older_than_positive_witness :
    compare_versions "x" "1.2.3" = -1 :=
  malformed_older_than_positive "x" "1.2.3" 1 rfl rfl (by decide)

/-- C3 counterexample: "x" fails to parse (treated as version `[]`) and
"0.0.0" parses to the non-empty sequence [0, 0, 0], yet
`compare_versions "x" "0.0.0"` returns 0, not -1. -/
theorem malformed_vs_allzero_counterexample :
    parse_version "x" = [] ∧ parse_version "0.0.0" = [0, 0, 0] ∧
      ([0, 0, 0] : List Int) ≠ [] ∧ compare_versions "x" "0.0.0" = 0 := by
  exact ⟨rfl, by decide, by decide, by decide⟩

/-! ## Filesystem model

A directory's contents are a finite association list of named entries; a
regular file carries its content string.  `os.listdir` order is the list
order.  Real filesystems have no duplicate names within a directory; where
a proof needs that fact it is an explicit `List.Nodup` hypothesis on the
key list. -/

mutual
inductive Entry where
  | file (data : String)
  | dir (children : EntryList)
inductive EntryList where
  | nil
  | cons (name : String) (entry : Entry) (rest : EntryList)
end

/-- First entry with the given name (filesystem lookup). -/
def EntryList.lookup : EntryList → String → Option Entry
  | .nil, _ => none
  | .cons m e rest, n => if m = n then some e else rest.lookup n

/-- Replace the first entry with the given name, or append a new one:
the effect of creating/overwriting a directory member. -/
def EntryList.set : EntryList → String → Entry → EntryList
  | .nil, n, e => .cons n e .nil
  | .cons m e0 rest, n, e =>
    if m = n then .cons n e rest else .cons m e0 (rest.set n e)

def EntryList.keys : EntryList → List String
  | .nil => []
  | .cons m _ rest => m :: rest.keys

theorem EntryList.lookup_set_self : ∀ (l : EntryList) (n : String) (e : Entry),
    (l.set n e).lookup n = some e
  | .nil, n, e => by simp [EntryList.set, EntryList.lookup]
  | .cons m e0 rest, n, e => by
    by_cases h : m = n
    · simp [EntryList.set, h, EntryList.lookup]
    · simp [EntryList.set, h, EntryList.lookup,
        EntryList.lookup_set_self rest n e]

theorem EntryList.lookup_set_ne : ∀ (l : EntryList) (n m : String) (e : Entry),
    m ≠ n → (l.set n e).lookup m = l.lookup m
  | .nil, n, m, e, h => by
    simp [EntryList.set, EntryList.lookup, Ne.symm h]
  | .cons k e0 rest, n, m, e, h => by
    by_cases hk : k = n
    · subst hk
      simp only [EntryList.set, if_pos rfl, EntryList.lookup]
      rw [if_neg (fun hnm => h (Eq.symm hnm)),
        if_neg (fun hnm => h (Eq.symm hnm))]
    · simp only [EntryList.set, if_neg hk, EntryList.lookup]
      by_cases hkm : k = m
      · rw [if_pos hkm, if_pos hkm]
      · rw [if_neg hkm, if_neg hkm, EntryList.lookup_set_ne rest n m e h]

/-- Whether `os.path.isdir` holds for a child of a directory. -/
def isDirAt (l : EntryList) (n : String) : Bool :=
  match l.lookup n with
  | some (.dir _) => true
  | _ => false

/-! ## Local inventory reader (src/_3dse_core.py, `get_local_luma_version`)

`os.path.join` is modelled with '/' as separator.  The drive argument of
the reader is `none` when `os.path.exists(drive_letter)` is false, and
`some root` (the drive's root directory contents) otherwise. -/

def errDriveNotFound (drive : String) : String :=
  "Error: Drive letter \x27" ++ drive ++ "\x27 not found."

def errLumaDirNotFound (drive : String) : String :=
  "Error: The \x27luma\x27 directory was not found on \x27" ++ drive ++ "\x27."

def errConfigNotFound (drive : String) : String :=
  "Error: The file \x27" ++ drive ++ "/luma/config.ini\x27 (config.ini) was not found."

def errConfigFormat : String :=
  "Error: The first line of config.ini does not contain the expected Luma3DS version format."

def errConfigRead (e : String) : String :=
  "Error reading config.ini or parsing version: " ++ e

/-- Maximal leading digit run and the remains. -/
def takeDigits : List Char → List Char × List Char
  | [] => ([], [])
  | c :: rest =>
    if c.isDigit then
      let (run, r) := takeDigits rest
      (c :: run, r)
    else ([], c :: rest)

/-- Attempt of `\d+\.\d+\.\d+` at a fixed position (the greedy runs are
forced here, since a digit run followed by `\.` is maximal-munch exact);
returns the matched text. -/
def matchVerAt (cs : List Char) : Option (List Char) :=
  match takeDigits cs with
  | ([], _) => none
  | (r1, '.' :: rest1) =>
    match takeDigits rest1 with
    | ([], _) => none
    | (r2, '.' :: rest2) =>
      match takeDigits rest2 with
      | ([], _) => none
      | (r3, _) => some (r1 ++ '.' :: r2 ++ '.' :: r3)
    | (_, _) => none
  | (_, _) => none

/-- `re.search(r'v(\d+\.\d+\.\d+)', line)`: leftmost match wins; the
returned string is capture group 1. -/
def searchLumaVersion : List Char → Option String
  | [] => none
  | c :: rest =>
    if c = 'v' then
      match matchVerAt rest with
      | some g => some (String.mk g)
      | none => searchLumaVersion rest
    else searchLumaVersion rest

/-- `f.readline().strip()`: everything before the first newline, with
surrounding whitespace removed. -/
def firstLineStripped (content : String) : List Char :=
  stripOuter isPySpace (content.data.takeWhile (fun c => c != '\n'))

/-- `get_local_luma_version` (src/_3dse_core.py lines 42-65). -/
def get_local_luma_version (drive_letter : String)
    (device : Option EntryList) : Option String × Option String :=
  match device with
  | none => (none, some (errDriveNotFound drive_letter))
  | some root =>
    match root.lookup "luma" with
    | some (.dir lumaCh) =>
      match lumaCh.lookup "config.ini" with
      | none => (none, some (errConfigNotFound drive_letter))
      | some (.dir _) => (none, some (errConfigRead "IsADirectoryError"))
      | some (.file content) =>
        match searchLumaVersion (firstLineStripped content) with
        | some v => (some v, none)
        | none => (none, some errConfigFormat)
    | _ => (none, some (errLumaDirNotFound drive_letter))

/-- C8: `get_local_luma_version` checks drive root, then the `luma`
directory, then `config.ini`, in that order, short-circuiting at the first
missing element with that element's distinct error message; in particular,
when the root exists but `luma` is absent or not a directory, the returned
error is the missing-directory error, independent of anything about
`config.ini`. -/
theorem get_local_luma_version_check_order (drive : String) :
    (get_local_luma_version drive none =
      (none, some (errDriveNotFound drive))) ∧
    (∀ root : EntryList, isDirAt root "luma" = false →
      get_local_luma_version drive (some root) =
        (none, some (errLumaDirNotFound drive))) ∧
    (∀ root lumaCh : EntryList, root.lookup "luma" = some (.dir lumaCh) →
      lumaCh.lookup "config.ini" = none →
      get_local_luma_version drive (some root) =
        (none, some (errConfigNotFound drive))) := by
  refine ⟨rfl, ?_, ?_⟩
  · intro root h
    simp only [get_local_luma_version]
    split
    · rename_i lumaCh heq
      rw [isDirAt, heq] at h
      simp at h
    · rfl
  · intro root lumaCh h1 h2
    simp only [get_local_luma_version, h1, h2]

theorem get_local_luma_version_check_order_witness :
    (get_local_luma_version "E:"
        (some (.cons "other" (.file "") .nil)) =
      (none, some (errLumaDirNotFound "E:"))) ∧
    (get_local_luma_version "E:"
        (some (.cons "luma" (.dir .nil) .nil)) =
      (none, some (errConfigNotFound "E:"))) :=
  ⟨(get_local_luma_version_check_order "E:").2.1
      (.cons "other" (.file "") .nil) rfl,
    (get_local_luma_version_check_order "E:").2.2
      (.cons "luma" (.dir .nil) .nil) .nil rfl rfl⟩

/-! ## Release lookup (src/_3dse_core.py, `get_latest_luma_release_info`
and `get_latest_gm9_release_info`)

The GitHub "latest release" JSON body is modelled by `GhRelease`: the
optional `tag_name` and, per asset, the optional `name` and
`browser_download_url` fields.  Python truthiness (`if tag_name and ...`,
`and download_url`) makes an empty string behave like a missing field. -/

structure GhAsset where
  name : Option String
  browser_download_url : Option String

structure GhRelease where
  tag_name : Option String
  assets : List GhAsset

structure ReleaseInfo where
  version : String
  download_url : String

/-- Python truthiness of an optional string. -/
def truthy : Option String → Bool
  | none => false
  | some s => !(s == "")

/-- `tag_name.startswith('v')` for the one-character prefix. -/
def startsWithV (s : String) : Bool :=
  match s.data with
  | 'v' :: _ => true
  | _ => false

/-- `tag_name and tag_name.startswith('v')`. -/
def tagOk : Option String → Bool
  | none => false
  | some s => !(s == "") && startsWithV s

/-- Consume a literal prefix, returning the remainder on success. -/
def matchLit : List Char → List Char → Option (List Char)
  | [], cs => some cs
  | _ :: _, [] => none
  | l :: ls, c :: cs => if c = l then matchLit ls cs else none

/-- `\d+\.\d+\.\d+` at the current position, returning the remainder.
Greedy digit runs followed by literal dots are maximal-munch exact, so no
backtracking is needed. -/
def matchThreeNums (cs : List Char) : Option (List Char) :=
  match takeDigits cs with
  | ([], _) => none
  | (_, '.' :: rest1) =>
    match takeDigits rest1 with
    | ([], _) => none
    | (_, '.' :: rest2) =>
      match takeDigits rest2 with
      | ([], _) => none
      | (_, rest3) => some rest3
    | (_, _) => none
  | (_, _) => none

/-- `re.match(r"Luma3DSv\d+\.\d+\.\d+\.zip", name)`: anchored at the start
of the name, free at the end. -/
def lumaZipMatch (name : String) : Bool :=
  match matchLit "Luma3DSv".data name.data with
  | none => false
  | some r =>
    match matchThreeNums r with
    | none => false
    | some r2 => (matchLit ".zip".data r2).isSome

/-- `.*\.zip` at the current position: a newline-free prefix followed by
the literal ".zip" (a regex `.` does not match a newline). -/
def dotStarZip : List Char → Bool
  | [] => false
  | c :: rest =>
    match matchLit ".zip".data (c :: rest) with
    | some _ => true
    | none => if c = '\n' then false else dotStarZip rest

/-- `re.match(r"GodMode9-v\d+\.\d+\.\d+.*\.zip", name)`.  Taking the third
digit run maximal loses no matches: a shorter run only donates digits to
`.*`, which accepts them anyway. -/
def gm9ZipMatch (name : String) : Bool :=
  match matchLit "GodMode9-v".data name.data with
  | none => false
  | some r =>
    match matchThreeNums r with
    | none => false
    | some r2 => dotStarZip r2

/-- One loop iteration's test: `if asset_name and pattern.match(asset_name)`. -/
def assetMatches (pat : String → Bool) (a : GhAsset) : Bool :=
  match a.name with
  | some n => !(n == "") && pat n
  | none => false

/-- The asset scan loop: `download_url` after the loop is the
`browser_download_url` of the first asset whose truthy name matches the
pattern (possibly `none` if that asset lacks the URL field). -/
def findDownloadUrl (pat : String → Bool) : List GhAsset → Option String
  | [] => none
  | a :: rest =>
    match a.name with
    | some n =>
      match !(n == "") && pat n with
      | true => a.browser_download_url
      | false => findDownloadUrl pat rest
    | none => findDownloadUrl pat rest

def errLumaTag : String :=
  "Error: Could not find the latest Luma3DS version number on GitHub (tag_name missing or invalid)."

def errLumaAsset : String :=
  "Error: Could not find the Luma3DS ZIP file (pattern \x27Luma3DSvX.Y.Z.zip\x27) in the latest GitHub Release. The asset name might have changed."

def errGm9Tag : String :=
  "Error: Could not find the latest GodMode9 version number on GitHub (tag_name missing or invalid)."

def errGm9Asset : String :=
  "Error: Could not find the GodMode9 ZIP file (pattern \x27GodMode9-vX.Y.Z-*.zip\x27) in the latest GitHub Release. The asset name might have changed."

/-- `get_latest_luma_release_info` (src/_3dse_core.py lines 67-101), after
a successful HTTP round trip; the if/elif chain of the source maps to the
boolean case split below (its final `else` branch is unreachable). -/
def get_latest_luma_release_info (data : GhRelease) :
    Option ReleaseInfo × Option String :=
  let tag_name := data.tag_name
  let download_url := findDownloadUrl lumaZipMatch data.assets
  match tagOk tag_name, truthy download_url with
  | true, true =>
    (some ⟨String.mk ((tag_name.getD "").data.drop 1), download_url.getD ""⟩,
      none)
  | false, _ => (none, some errLumaTag)
  | true, false => (none, some errLumaAsset)

/-- `get_latest_gm9_release_info` (src/_3dse_core.py lines 205-242). -/
def get_latest_gm9_release_info (data : GhRelease) :
    Option ReleaseInfo × Option String :=
  let tag_name := data.tag_name
  let download_url := findDownloadUrl gm9ZipMatch data.assets
  match tagOk tag_name, truthy download_url with
  | true, true =>
    (some ⟨String.mk ((tag_name.getD "").data.drop 1), download_url.getD ""⟩,
      none)
  | false, _ => (none, some errGm9Tag)
  | true, false => (none, some errGm9Asset)

theorem findDownloadUrl_eq_find (pat : String → Bool) (l : List GhAsset) :
    findDownloadUrl pat l =
      (match l.find? (assetMatches pat) with
       | some a => a.browser_download_url
       | none => none) := by
  induction l with
  | nil => rfl
  | cons a rest ih =>
    rw [List.find?_cons]
    cases hn : a.name with
    | none =>
      have hm : assetMatches pat a = false := by rw [assetMatches, hn]
      rw [hm]
      conv_lhs => rw [findDownloadUrl]
      rw [hn]
      exact ih
    | some n =>
      have hm : assetMatches pat a = (!(n == "") && pat n) := by
        rw [assetMatches, hn]
      rw [hm]
      conv_lhs => rw [findDownloadUrl]
      rw [hn]
      cases hc : (!(n == "") && pat n) with
      | true =>
        show (match !(n == "") && pat n with
          | true => a.browser_download_url
          | false => findDownloadUrl pat rest) = _
        rw [hc]
      | false =>
        show (match !(n == "") && pat n with
          | true => a.browser_download_url
          | false => findDownloadUrl pat rest) = _
        rw [hc]
        exact ih

/-- C7: for a response whose `tag_name` is present, non-empty and starts
with 'v': if no asset name matches the component's pattern, the lookup
returns no release info together with the asset-not-found error; if some
asset matches, the first matching asset in list order supplies the
download URL (stated for both `get_latest_luma_release_info` and
`get_latest_gm9_release_info`). -/
theorem release_lookup_first_match (data : GhRelease) (t : String)
    (ht : data.tag_name = some t) (hne : t ≠ "") (hv : startsWithV t = true) :
    ((data.assets.find? (assetMatches lumaZipMatch) = none →
        get_latest_luma_release_info data = (none, some errLumaAsset)) ∧
      (∀ a u, data.assets.find? (assetMatches lumaZipMatch) = some a →
        a.browser_download_url = some u → u ≠ "" →
        get_latest_luma_release_info data =
          (some ⟨String.mk (t.data.drop 1), u⟩, none))) ∧
    ((data.assets.find? (assetMatches gm9ZipMatch) = none →
        get_latest_gm9_release_info data = (none, some errGm9Asset)) ∧
      (∀ a u, data.assets.find? (assetMatches gm9ZipMatch) = some a →
        a.browser_download_url = some u → u ≠ "" →
        get_latest_gm9_release_info data =
          (some ⟨String.mk (t.data.drop 1), u⟩, none))) := by
  have htag : tagOk data.tag_name = true := by
    rw [ht, tagOk, hv, beq_eq_false_iff_ne.mpr hne]
    rfl
  constructor
  · constructor
    · intro hfind
      have hurl : findDownloadUrl lumaZipMatch data.assets = none := by
        rw [findDownloadUrl_eq_find, hfind]
      rw [get_latest_luma_release_info]
      rw [htag, hurl]
      rfl
    · intro a u hfind hu hune
      have hurl : findDownloadUrl lumaZipMatch data.assets = some u := by
        rw [findDownloadUrl_eq_find, hfind]
        exact hu
      rw [get_latest_luma_release_info]
      rw [htag, hurl, ht]
      have : truthy (some u) = true := by
        rw [truthy, beq_eq_false_iff_ne.mpr hune]
        rfl
      rw [this]
      rfl
  · constructor
    · intro hfind
      have hurl : findDownloadUrl gm9ZipMatch data.assets = none := by
        rw [findDownloadUrl_eq_find, hfind]
      rw [get_latest_gm9_release_info]
      rw [htag, hurl]
      rfl
    · intro a u hfind hu hune
      have hurl : findDownloadUrl gm9ZipMatch data.assets = some u := by
        rw [findDownloadUrl_eq_find, hfind]
        exact hu
      rw [get_latest_gm9_release_info]
      rw [htag, hurl, ht]
      have : truthy (some u) = true := by
        rw [truthy, beq_eq_false_iff_ne.mpr hune]
        rfl
      rw [this]
      rfl

theorem release_lookup_first_match_witness :
    (get_latest_luma_release_info
        ⟨some "v1.2.3", [⟨some "Luma3DSv1.2.3.zip", some "lurl"⟩]⟩ =
      (some ⟨String.mk ("v1.2.3".data.drop 1), "lurl"⟩, none)) ∧
    (get_latest_gm9_release_info
        ⟨some "v1.2.3", [⟨some "Luma3DSv1.2.3.zip", some "lurl"⟩]⟩ =
      (none, some errGm9Asset)) :=
  ⟨(release_lookup_first_match
        ⟨some "v1.2.3", [⟨some "Luma3DSv1.2.3.zip", some "lurl"⟩]⟩
        "v1.2.3" rfl (by decide) rfl).1.2
      ⟨some "Luma3DSv1.2.3.zip", some "lurl"⟩ "lurl" rfl rfl (by decide),
    (release_lookup_first_match
        ⟨some "v1.2.3", [⟨some "Luma3DSv1.2.3.zip", some "lurl"⟩]⟩
        "v1.2.3" rfl (by decide) rfl).2.1 rfl⟩

/-! ## Update executors
(src/_3dse_core.py, `download_and_inject_luma_update` and
`download_and_inject_gm9_update`)

Both executors are modelled after the HTTP layer as pure functions of the
device root, the download outcome (`DownloadResult`), and the streaming
loop's data (advertised content length `total` and received chunk sizes
`chunks`).  The scoped temporary directory only holds the archive and the
extracted tree, which appear directly as `DownloadResult.ok tree`.  The
returned tuple is (emitted events, success flag, message, final device root
on success); the partially updated device of failure paths is not tracked
(`none`). -/

structure ProgressEvent where
  message : String
  percent : Nat
  severity : String

/-- Outcome of the download/extraction front half: a connection failure
(`requests.exceptions.RequestException`), a corrupt archive
(`zipfile.BadZipFile`), or the fully extracted tree. -/
inductive DownloadResult where
  | netError (e : String)
  | badZip
  | ok (tree : EntryList)

/-- Events of the streaming download loop: one event per non-empty chunk,
only when the advertised content length is positive, at percent
`int(downloaded/total*50)+10` (exact-rational model of the float
arithmetic; the megabyte message text is abstracted). -/
def chunkEvents (total : Nat) : Nat → List Nat → List ProgressEvent
  | _, [] => []
  | dsofar, c :: rest =>
    if c = 0 then chunkEvents total dsofar rest
    else
      if total > 0 then
        ⟨"Downloaded: ...", 50 * (dsofar + c) / total + 10, "info"⟩ ::
          chunkEvents total (dsofar + c) rest
      else chunkEvents total (dsofar + c) rest

/-- `shutil.copy2(src, dst)` for a source file: if `dst` names an existing
directory the file is copied into it under its own name (raising if that
inner path is itself a directory); otherwise `dst` is created or
overwritten. -/
def copy2At (dest : EntryList) (name : String) (data : String) :
    Except String EntryList :=
  match dest.lookup name with
  | some (.dir dch) =>
    match dch.lookup name with
    | some (.dir _) => .error "IsADirectoryError"
    | _ => .ok (dest.set name (.dir (dch.set name (.file data))))
  | _ => .ok (dest.set name (.file data))

/-- `os.makedirs(root/n1/n2, exist_ok=True)`: returns the (existing or
freshly created) children lists of `root/n1` and `root/n1/n2`; raises if a
path component exists as a regular file.  The caller re-embeds the result
with `EntryList.set`. -/
def makedirs2 (root : EntryList) (n1 n2 : String) :
    Except String (EntryList × EntryList) :=
  match root.lookup n1 with
  | some (.file _) => .error "FileExistsError"
  | some (.dir ch1) =>
    match ch1.lookup n2 with
    | some (.file _) => .error "FileExistsError"
    | some (.dir ch2) => .ok (ch1, ch2)
    | none => .ok (ch1.set n2 (.dir .nil), .nil)
  | none => .ok (.cons n2 (.dir .nil) .nil, .nil)

/-- `os.makedirs(root/n, exist_ok=True)`, returning the children of `root/n`. -/
def makedirs1 (root : EntryList) (n : String) : Except String EntryList :=
  match root.lookup n with
  | some (.file _) => .error "FileExistsError"
  | some (.dir ch) => .ok ch
  | none => .ok .nil

/-- One optional top-level archive file copied to the device root (the two
duplicated boot.firm / boot.3dsx blocks of `download_and_inject_luma_update`,
parameterized by the filename and the percent of the block's events). -/
def lumaStepBoot (name : String) (pct : Nat) (root tree : EntryList) :
    List ProgressEvent × Except String EntryList :=
  match tree.lookup name with
  | some (.file d) =>
    ([⟨"Copying " ++ name ++ "...", pct, "info"⟩], copy2At root name d)
  | some (.dir _) =>
    ([⟨"Copying " ++ name ++ "...", pct, "info"⟩], .error "IsADirectoryError")
  | none =>
    ([⟨"Warning: \x27" ++ name ++ "\x27 not found in extracted Luma archive.",
        pct, "warning"⟩], .ok root)

/-- Files-only, non-recursive copy of the extracted `luma/config` entries
(listdir order) into the destination config directory's children. -/
def copyTopFiles : EntryList → EntryList → Except String EntryList
  | .nil, dest => .ok dest
  | .cons n (.file d) rest, dest =>
    match copy2At dest n d with
    | .error m => .error m
    | .ok dest1 => copyTopFiles rest dest1
  | .cons _ (.dir _) rest, dest => copyTopFiles rest dest

/-- The `luma/config` block of `download_and_inject_luma_update`. -/
def lumaStepConfig (root tree : EntryList) :
    List ProgressEvent × Except String EntryList :=
  match tree.lookup "luma" with
  | some (.dir lumaCh) =>
    match lumaCh.lookup "config" with
    | some (.dir srcItems) =>
      ([⟨"Updating luma/config folder...", 85, "info"⟩],
        match makedirs2 root "luma" "config" with
        | .error m => .error m
        | .ok (ch1, ch2) =>
          match copyTopFiles srcItems ch2 with
          | .error m => .error m
          | .ok ch2f => .ok (root.set "luma" (.dir (ch1.set "config" (.dir ch2f)))))
    | _ =>
      ([⟨"Warning: Luma/config folder not found in release.", 85, "warning"⟩],
        .ok root)
  | _ =>
    ([⟨"Warning: Luma/config folder not found in release.", 85, "warning"⟩],
      .ok root)

/-- The post-extraction copy phase of `download_and_inject_luma_update`. -/
def lumaCopyPhase (root tree : EntryList) :
    List ProgressEvent × Except String EntryList :=
  match lumaStepBoot "boot.firm" 75 root tree with
  | (e1, .error m) => (e1, .error m)
  | (e1, .ok root1) =>
    match lumaStepBoot "boot.3dsx" 80 root1 tree with
    | (e2, .error m) => (e1 ++ e2, .error m)
    | (e2, .ok root2) =>
      match lumaStepConfig root2 tree with
      | (e3, r) => (e1 ++ e2 ++ e3, r)

def evStartLuma : ProgressEvent := ⟨"Starting Luma3DS update process...", 0, "info"⟩

def evDlLuma : ProgressEvent := ⟨"Downloading Luma3DS...", 10, "info"⟩

def evGotLuma : ProgressEvent := ⟨"Luma3DS archive downloaded.", 60, "info"⟩

def evExtLuma : ProgressEvent := ⟨"Luma3DS archive extracted.", 70, "info"⟩

def evDoneLuma : ProgressEvent :=
  ⟨"Luma3DS files successfully copied.", 100, "success"⟩

/-- `download_and_inject_luma_update` (src/_3dse_core.py lines 103-185). -/
def download_and_inject_luma_update (root : EntryList) (dl : DownloadResult)
    (chunks : List Nat) (total : Nat) :
    List ProgressEvent × Bool × String × Option EntryList :=
  match dl with
  | .netError e =>
    ([evStartLuma, evDlLuma, ⟨"Network error: " ++ e, 0, "error"⟩], false,
      "Network error downloading Luma3DS: " ++ e, none)
  | .badZip =>
    ([evStartLuma, evDlLuma] ++ chunkEvents total 0 chunks ++
        [evGotLuma, ⟨"Error: Downloaded Luma3DS ZIP is corrupted.", 0, "error"⟩],
      false, "The downloaded Luma3DS ZIP file is corrupted.", none)
  | .ok tree =>
    match lumaCopyPhase root tree with
    | (evs, .error m) =>
      ([evStartLuma, evDlLuma] ++ chunkEvents total 0 chunks ++
          [evGotLuma, evExtLuma] ++ evs ++
          [⟨"An unexpected Luma3DS error occurred: " ++ m, 0, "error"⟩],
        false, "An unexpected error during Luma3DS update: " ++ m, none)
    | (evs, .ok rootF) =>
      ([evStartLuma, evDlLuma] ++ chunkEvents total 0 chunks ++
          [evGotLuma, evExtLuma] ++ evs ++ [evDoneLuma],
        true, "Luma3DS update successful.", some rootF)

def evStartGm9 : ProgressEvent := ⟨"Starting GodMode9 update process...", 0, "info"⟩

def evDlGm9 : ProgressEvent := ⟨"Downloading GodMode9...", 10, "info"⟩

def evGotGm9 : ProgressEvent := ⟨"GodMode9 archive downloaded.", 60, "info"⟩

def evExtGm9 : ProgressEvent := ⟨"GodMode9 archive extracted.", 70, "info"⟩

def evCopyFirm : ProgressEvent := ⟨"Copying GodMode9.firm...", 75, "info"⟩

def evUpdGm9 : ProgressEvent := ⟨"Updating gm9/ folder...", 80, "info"⟩

def evSkipScripts : ProgressEvent :=
  ⟨"Skipping gm9/scripts folder...", 85, "info"⟩

def evDoneGm9 : ProgressEvent :=
  ⟨"GodMode9 files successfully copied.", 100, "success"⟩

def gm9FirmMissingMsg : String :=
  "Error: \x27GodMode9.firm\x27 not found in the extracted GodMode9 archive."

/-- `'GodMode9.firm' in files` for one directory of the `os.walk` (only
regular files count). -/
def firmHere : EntryList → Option String
  | .nil => none
  | .cons n (.file d) rest =>
    if n = "GodMode9.firm" then some d else firmHere rest
  | .cons _ (.dir _) rest => firmHere rest

/-- `os.walk` continuation over sibling subdirectories (top-down,
listdir order), descending depth-first. -/
def findFirmSub : EntryList → Option String
  | .nil => none
  | .cons _ (.file _) rest => findFirmSub rest
  | .cons _ (.dir c) rest =>
    match firmHere c with
    | some d => some d
    | none =>
      match findFirmSub c with
      | some d => some d
      | none => findFirmSub rest

/-- The `os.walk` search for GodMode9.firm in the extracted tree. -/
def findFirm (ch : EntryList) : Option String :=
  match firmHere ch with
  | some d => some d
  | none => findFirmSub ch

/-- One non-`scripts` item of the gm9 merge loop: a source directory is
`rmtree`d at the destination (raising `NotADirectoryError` if the
destination entry is a file) and `copytree`d afresh; a source file is
`copy2`d. -/
def gm9MergeStep (dest : EntryList) (name : String) (e : Entry) :
    Except String EntryList :=
  match e with
  | .dir _ =>
    match dest.lookup name with
    | some (.file _) => .error "NotADirectoryError"
    | _ => .ok (dest.set name e)
  | .file d => copy2At dest name d

/-- The gm9 merge loop over the extracted gm9 entries in listdir order;
`scripts` entries are skipped, emitting their progress event. -/
def gm9MergeFold : EntryList → EntryList →
    List ProgressEvent × Except String EntryList
  | .nil, dest => ([], .ok dest)
  | .cons name e rest, dest =>
    if name = "scripts" then
      match gm9MergeFold rest dest with
      | (evs, r) => (evSkipScripts :: evs, r)
    else
      match gm9MergeStep dest name e with
      | .error m => ([], .error m)
      | .ok dest1 => gm9MergeFold rest dest1

/-- Result of the gm9 copy phase: the uncaught early return for a missing
GodMode9.firm, an exception (caught by the generic handler), or success. -/
inductive GmPhaseRes where
  | missingFirm
  | exn (e : String)
  | ok (root : EntryList)

/-- The post-extraction phase of `download_and_inject_gm9_update`:
`os.makedirs(luma/payloads)`, the `os.walk` search for GodMode9.firm (bare
failure return when absent), the firm copy, and the selective gm9 merge. -/
def gm9CopyPhase (root tree : EntryList) : List ProgressEvent × GmPhaseRes :=
  match makedirs2 root "luma" "payloads" with
  | .error m => ([], .exn m)
  | .ok (lumaCh, payloadsCh) =>
    match findFirm tree with
    | none => ([], .missingFirm)
    | some data =>
      match copy2At payloadsCh "GodMode9.firm" data with
      | .error m => ([evCopyFirm], .exn m)
      | .ok pch1 =>
        let root2 := root.set "luma" (.dir (lumaCh.set "payloads" (.dir pch1)))
        match tree.lookup "gm9" with
        | some (.dir srcCh) =>
          match makedirs1 root2 "gm9" with
          | .error m => ([evCopyFirm, evUpdGm9], .exn m)
          | .ok destCh =>
            match gm9MergeFold srcCh destCh with
            | (mevs, .error m) => ([evCopyFirm, evUpdGm9] ++ mevs, .exn m)
            | (mevs, .ok destCh1) =>
              ([evCopyFirm, evUpdGm9] ++ mevs,
                .ok (root2.set "gm9" (.dir destCh1)))
        | _ => ([evCopyFirm], .ok root2)

/-- `download_and_inject_gm9_update` (src/_3dse_core.py lines 244-343). -/
def download_and_inject_gm9_update (root : EntryList) (dl : DownloadResult)
    (chunks : List Nat) (total : Nat) :
    List ProgressEvent × Bool × String × Option EntryList :=
  match dl with
  | .netError e =>
    ([evStartGm9, evDlGm9, ⟨"Network error: " ++ e, 0, "error"⟩], false,
      "Network error downloading GodMode9: " ++ e, none)
  | .badZip =>
    ([evStartGm9, evDlGm9] ++ chunkEvents total 0 chunks ++
        [evGotGm9, ⟨"Error: Downloaded GodMode9 ZIP is corrupted.", 0, "error"⟩],
      false, "The downloaded GodMode9 ZIP file is corrupted.", none)
  | .ok tree =>
    match gm9CopyPhase root tree with
    | (evs, .missingFirm) =>
      ([evStartGm9, evDlGm9] ++ chunkEvents total 0 chunks ++
          [evGotGm9, evExtGm9] ++ evs,
        false, gm9FirmMissingMsg, none)
    | (evs, .exn m) =>
      ([evStartGm9, evDlGm9] ++ chunkEvents total 0 chunks ++
          [evGotGm9, evExtGm9] ++ evs ++
          [⟨"An unexpected GodMode9 error occurred: " ++ m, 0, "error"⟩],
        false, "An unexpected error during GodMode9 update: " ++ m, none)
    | (evs, .ok rootF) =>
      ([evStartGm9, evDlGm9] ++ chunkEvents total 0 chunks ++
          [evGotGm9, evExtGm9] ++ evs ++ [evDoneGm9],
        true, "GodMode9 update successful.", some rootF)

/-! ## Frame properties of the gm9 merge (claim C1) -/

theorem gm9MergeStep_lookup_ne (dest : EntryList) (name : String) (e : Entry)
    (dest1 : EntryList) (m : String) (hm : m ≠ name)
    (h : gm9MergeStep dest name e = .ok dest1) :
    dest1.lookup m = dest.lookup m := by
  cases e with
  | dir ch =>
    rw [gm9MergeStep] at h
    split at h
    · exact Except.noConfusion h
    · injection h with h
      subst h
      exact EntryList.lookup_set_ne _ _ _ _ hm
  | file d =>
    rw [gm9MergeStep, copy2At] at h
    split at h
    · split at h
      · exact Except.noConfusion h
      · injection h with h
        subst h
        exact EntryList.lookup_set_ne _ _ _ _ hm
    · injection h with h
      subst h
      exact EntryList.lookup_set_ne _ _ _ _ hm

theorem gm9MergeStep_dir_ok (dest : EntryList) (name : String)
    (c : EntryList) (dest1 : EntryList)
    (h : gm9MergeStep dest name (.dir c) = .ok dest1) :
    dest1 = dest.set name (.dir c) := by
  rw [gm9MergeStep] at h
  split at h
  · exact Except.noConfusion h
  · injection h with h
    exact h.symm

theorem copy2At_on_file (dest : EntryList) (n dataNew dataOld : String)
    (h : dest.lookup n = some (.file dataOld)) :
    copy2At dest n dataNew = .ok (dest.set n (.file dataNew)) := by
  rw [copy2At, h]

theorem gm9MergeFold_lookup_scripts :
    ∀ (src dest : EntryList) (evs : List ProgressEvent) (d1 : EntryList),
      gm9MergeFold src dest = (evs, .ok d1) →
      d1.lookup "scripts" = dest.lookup "scripts"
  | .nil, dest, evs, d1, h => by
    rw [gm9MergeFold] at h
    injection h with h1 h2
    injection h2 with h2
    subst h2
    rfl
  | .cons name e rest, dest, evs, d1, h => by
    rw [gm9MergeFold] at h
    by_cases hs : name = "scripts"
    · rw [if_pos hs] at h
      cases hfr : gm9MergeFold rest dest with
      | mk evs2 r =>
        rw [hfr] at h
        injection h with h1 h2
        cases r with
        | error m => exact Except.noConfusion h2
        | ok dres =>
          injection h2 with h2
          subst h2
          exact gm9MergeFold_lookup_scripts rest dest evs2 dres hfr
    · rw [if_neg hs] at h
      cases hst : gm9MergeStep dest name e with
      | error m =>
        rw [hst] at h
        injection h with h1 h2
        exact Except.noConfusion h2
      | ok dest1 =>
        rw [hst] at h
        rw [gm9MergeFold_lookup_scripts rest dest1 evs d1 h]
        exact gm9MergeStep_lookup_ne dest name e dest1 "scripts"
          (Ne.symm hs) hst

theorem gm9MergeFold_lookup_not_key :
    ∀ (src dest : EntryList) (evs : List ProgressEvent) (d1 : EntryList)
      (n : String), n ∉ src.keys →
      gm9MergeFold src dest = (evs, .ok d1) →
      d1.lookup n = dest.lookup n
  | .nil, dest, evs, d1, n, _, h => by
    rw [gm9MergeFold] at h
    injection h with h1 h2
    injection h2 with h2
    subst h2
    rfl
  | .cons name e rest, dest, evs, d1, n, hmem, h => by
    rw [EntryList.keys, List.mem_cons] at hmem
    push_neg at hmem
    rw [gm9MergeFold] at h
    by_cases hs : name = "scripts"
    · rw [if_pos hs] at h
      cases hfr : gm9MergeFold rest dest with
      | mk evs2 r =>
        rw [hfr] at h
        injection h with h1 h2
        cases r with
        | error m => exact Except.noConfusion h2
        | ok dres =>
          injection h2 with h2
          subst h2
          exact gm9MergeFold_lookup_not_key rest dest evs2 dres n hmem.2 hfr
    · rw [if_neg hs] at h
      cases hst : gm9MergeStep dest name e with
      | error m =>
        rw [hst] at h
        injection h with h1 h2
        exact Except.noConfusion h2
      | ok dest1 =>
        rw [hst] at h
        rw [gm9MergeFold_lookup_not_key rest dest1 evs d1 n hmem.2 h]
        exact gm9MergeStep_lookup_ne dest name e dest1 n hmem.1 hst

theorem gm9MergeFold_dir_replaced :
    ∀ (src dest : EntryList) (evs : List ProgressEvent) (d1 : EntryList)
      (n : String) (c : EntryList), src.keys.Nodup → n ≠ "scripts" →
      src.lookup n = some (.dir c) →
      gm9MergeFold src dest = (evs, .ok d1) →
      d1.lookup n = some (.dir c)
  | .nil, _, _, _, _, _, _, _, hl, _ => by
    rw [EntryList.lookup] at hl
    exact Option.noConfusion hl
  | .cons name e rest, dest, evs, d1, n, c, hnd, hscr, hl, h => by
    rw [EntryList.keys, List.nodup_cons] at hnd
    rw [EntryList.lookup] at hl
    rw [gm9MergeFold] at h
    by_cases hn : name = n
    · subst hn
      rw [if_pos rfl] at hl
      injection hl with hl
      subst hl
      rw [if_neg hscr] at h
      cases hst : gm9MergeStep dest name (.dir c) with
      | error m =>
        rw [hst] at h
        injection h with h1 h2
        exact Except.noConfusion h2
      | ok dest1 =>
        rw [hst] at h
        have hd1 : dest1 = dest.set name (.dir c) :=
          gm9MergeStep_dir_ok dest name c dest1 hst
        rw [gm9MergeFold_lookup_not_key rest dest1 evs d1 name hnd.1 h, hd1]
        exact EntryList.lookup_set_self _ _ _
    · rw [if_neg hn] at hl
      by_cases hs : name = "scripts"
      · rw [if_pos hs] at h
        cases hfr : gm9MergeFold rest dest with
        | mk evs2 r =>
          rw [hfr] at h
          injection h with h1 h2
          cases r with
          | error m => exact Except.noConfusion h2
          | ok dres =>
            injection h2 with h2
            subst h2
            exact gm9MergeFold_dir_replaced rest dest evs2 dres n c
              hnd.2 hscr hl hfr
      · rw [if_neg hs] at h
        cases hst : gm9MergeStep dest name e with
        | error m =>
          rw [hst] at h
          injection h with h1 h2
          exact Except.noConfusion h2
        | ok dest1 =>
          rw [hst] at h
          exact gm9MergeFold_dir_replaced rest dest1 evs d1 n c
            hnd.2 hscr hl h

theorem gm9MergeFold_file_overwrites :
    ∀ (src dest : EntryList) (evs : List ProgressEvent) (d1 : EntryList)
      (n dOld dNew : String), src.keys.Nodup → n ≠ "scripts" →
      src.lookup n = some (.file dNew) →
      dest.lookup n = some (.file dOld) →
      gm9MergeFold src dest = (evs, .ok d1) →
      d1.lookup n = some (.file dNew)
  | .nil, _, _, _, _, _, _, _, _, hl, _, _ => by
    rw [EntryList.lookup] at hl
    exact Option.noConfusion hl
  | .cons name e rest, dest, evs, d1, n, dOld, dNew, hnd, hscr, hl, hd, h => by
    rw [EntryList.keys, List.nodup_cons] at hnd
    rw [EntryList.lookup] at hl
    rw [gm9MergeFold] at h
    by_cases hn : name = n
    · subst hn
      rw [if_pos rfl] at hl
      injection hl with hl
      subst hl
      rw [if_neg hscr] at h
      have hst : gm9MergeStep dest name (.file dNew) =
          .ok (dest.set name (.file dNew)) := by
        rw [gm9MergeStep]
        exact copy2At_on_file dest name dNew dOld hd
      rw [hst] at h
      rw [gm9MergeFold_lookup_not_key rest _ evs d1 name hnd.1 h]
      exact EntryList.lookup_set_self _ _ _
    · rw [if_neg hn] at hl
      by_cases hs : name = "scripts"
      · rw [if_pos hs] at h
        cases hfr : gm9MergeFold rest dest with
        | mk evs2 r =>
          rw [hfr] at h
          injection h with h1 h2
          cases r with
          | error m => exact Except.noConfusion h2
          | ok dres =>
            injection h2 with h2
            subst h2
            exact gm9MergeFold_file_overwrites rest dest evs2 dres n dOld dNew
              hnd.2 hscr hl hd hfr
      · rw [if_neg hs] at h
        cases hst : gm9MergeStep dest name e with
        | error m =>
          rw [hst] at h
          injection h with h1 h2
          exact Except.noConfusion h2
        | ok dest1 =>
          rw [hst] at h
          have hd1 : dest1.lookup n = some (.file dOld) := by
            rw [gm9MergeStep_lookup_ne dest name e dest1 n (Ne.symm hn) hst]
            exact hd
          exact gm9MergeFold_file_overwrites rest dest1 evs d1 n dOld dNew
            hnd.2 hscr hl hd1 h

/-- C1: over a pre-existing destination gm9 directory, a successful
GodMode9 update leaves the `scripts` child (with its entire contents)
unchanged, replaces every other child directory present in the archive's
gm9 folder wholesale by the archive's version, and overwrites every other
destination child file with the archive's file of the same name. -/
theorem gm9_update_merge_frame (root tree : EntryList) (chunks : List Nat)
    (total : Nat) (destCh srcCh : EntryList)
    (hdest : root.lookup "gm9" = some (.dir destCh))
    (hsrc : tree.lookup "gm9" = some (.dir srcCh))
    (hnd : srcCh.keys.Nodup)
    (hok : (download_and_inject_gm9_update root (.ok tree) chunks
      total).2.1 = true) :
    ∃ rootF destF : EntryList,
      (download_and_inject_gm9_update root (.ok tree) chunks
        total).2.2.2 = some rootF ∧
      rootF.lookup "gm9" = some (.dir destF) ∧
      destF.lookup "scripts" = destCh.lookup "scripts" ∧
      (∀ (n : String) (c : EntryList), n ≠ "scripts" →
        srcCh.lookup n = some (.dir c) → destF.lookup n = some (.dir c)) ∧
      (∀ (n dOld dNew : String), n ≠ "scripts" →
        srcCh.lookup n = some (.file dNew) →
        destCh.lookup n = some (.file dOld) →
        destF.lookup n = some (.file dNew)) := by
  rw [download_and_inject_gm9_update] at hok ⊢
  cases hph : gm9CopyPhase root tree with
  | mk evs r =>
    rw [hph] at hok
    cases r with
    | missingFirm => simp at hok
    | exn m => simp at hok
    | ok rootF =>
      rw [gm9CopyPhase] at hph
      split at hph
      · injection hph with h1 h2
        exact GmPhaseRes.noConfusion h2
      · rename_i lumaCh payloadsCh hmk
        split at hph
        · injection hph with h1 h2
          exact GmPhaseRes.noConfusion h2
        · rename_i data hff
          split at hph
          · injection hph with h1 h2
            exact GmPhaseRes.noConfusion h2
          · rename_i pch1 hcp
            split at hph
            · rename_i srcCh2 hlk
              rw [hsrc] at hlk
              injection hlk with hlk
              injection hlk with hlk
              subst hlk
              dsimp only [] at hph
              split at hph
              · injection hph with h1 h2
                exact GmPhaseRes.noConfusion h2
              · rename_i destCh2 hmk1
                have hl2 : (root.set "luma"
                    (.dir (lumaCh.set "payloads" (.dir pch1)))).lookup "gm9" =
                    some (.dir destCh) := by
                  rw [EntryList.lookup_set_ne _ _ _ _ (by decide)]
                  exact hdest
                rw [makedirs1, hl2] at hmk1
                injection hmk1 with hmk1
                subst hmk1
                split at hph
                · injection hph with h1 h2
                  exact GmPhaseRes.noConfusion h2
                · rename_i mevs destF hmf
                  injection hph with h1 h2
                  injection h2 with h2
                  subst h2
                  refine ⟨_, destF, rfl,
                    EntryList.lookup_set_self _ _ _, ?_, ?_, ?_⟩
                  · exact gm9MergeFold_lookup_scripts srcCh destCh mevs
                      destF hmf
                  · intro n c hscr hl
                    exact gm9MergeFold_dir_replaced srcCh destCh mevs destF
                      n c hnd hscr hl hmf
                  · intro n dOld dNew hscr hl hd
                    exact gm9MergeFold_file_overwrites srcCh destCh mevs
                      destF n dOld dNew hnd hscr hl hd hmf
            · rename_i x hlkx
              exact (hlkx srcCh hsrc).elim

theorem gm9_update_merge_frame_witness :
    ∃ rootF destF : EntryList,
      (download_and_inject_gm9_update
        (.cons "gm9" (.dir (.cons "scripts" (.file "user")
          (.cons "old" (.dir (.cons "stale" (.file "s") .nil)) .nil))) .nil)
        (.ok (.cons "GodMode9.firm" (.file "F")
          (.cons "gm9" (.dir (.cons "old" (.dir (.cons "new" (.file "n") .nil))
            (.cons "data" (.file "d") .nil))) .nil)))
        [] 0).2.2.2 = some rootF ∧
      rootF.lookup "gm9" = some (.dir destF) ∧
      destF.lookup "scripts" =
        (EntryList.cons "scripts" (.file "user")
          (.cons "old" (.dir (.cons "stale" (.file "s") .nil))
            .nil)).lookup "scripts" ∧
      (∀ (n : String) (c : EntryList), n ≠ "scripts" →
        (EntryList.cons "old" (.dir (.cons "new" (.file "n") .nil))
          (.cons "data" (.file "d") .nil)).lookup n = some (.dir c) →
        destF.lookup n = some (.dir c)) ∧
      (∀ (n dOld dNew : String), n ≠ "scripts" →
        (EntryList.cons "old" (.dir (.cons "new" (.file "n") .nil))
          (.cons "data" (.file "d") .nil)).lookup n = some (.file dNew) →
        (EntryList.cons "scripts" (.file "user")
          (.cons "old" (.dir (.cons "stale" (.file "s") .nil))
            .nil)).lookup n = some (.file dOld) →
        destF.lookup n = some (.file dNew)) :=
  gm9_update_merge_frame
    (.cons "gm9" (.dir (.cons "scripts" (.file "user")
      (.cons "old" (.dir (.cons "stale" (.file "s") .nil)) .nil))) .nil)
    (.cons "GodMode9.firm" (.file "F")
      (.cons "gm9" (.dir (.cons "old" (.dir (.cons "new" (.file "n") .nil))
        (.cons "data" (.file "d") .nil))) .nil))
    [] 0
    (.cons "scripts" (.file "user")
      (.cons "old" (.dir (.cons "stale" (.file "s") .nil)) .nil))
    (.cons "old" (.dir (.cons "new" (.file "n") .nil))
      (.cons "data" (.file "d") .nil))
    rfl rfl (by decide) rfl

/-! ## File dumper (src/_3dse_core.py, `dump_file`) and the GUI dump batch
(src/gui_app.py, `_3DSE_App._run_dump_in_thread`)

The host-side destination folder is flat: a map from file names to
contents (`os.makedirs(destination_folder, exist_ok=True)` is the identity
here).  The full host/device path prefixes inside messages are abstracted
to the file name. -/

abbrev FlatFs := List (String × String)

def flookup : FlatFs → String → Option String
  | [], _ => none
  | (m, d) :: rest, n => if m = n then some d else flookup rest n

def fset : FlatFs → String → String → FlatFs
  | [], n, d => [(n, d)]
  | (m, d0) :: rest, n, d =>
    if m = n then (n, d) :: rest else (m, d0) :: fset rest n d

theorem flookup_fset_self : ∀ (l : FlatFs) (n : String) (d : String),
    flookup (fset l n d) n = some d
  | [], n, d => by simp [fset, flookup]
  | (m, d0) :: rest, n, d => by
    by_cases h : m = n
    · simp [fset, h, flookup]
    · simp [fset, h, flookup, flookup_fset_self rest n d]

theorem flookup_fset_ne : ∀ (l : FlatFs) (n m : String) (d : String),
    m ≠ n → flookup (fset l n d) m = flookup l m
  | [], n, m, d, h => by simp [fset, flookup, Ne.symm h]
  | (k, d0) :: rest, n, m, d, h => by
    by_cases hk : k = n
    · subst hk
      simp only [fset, if_pos rfl, flookup]
      rw [if_neg (Ne.symm h), if_neg (Ne.symm h)]
    · simp only [fset, if_neg hk, flookup]
      by_cases hkm : k = m
      · rw [if_pos hkm, if_pos hkm]
      · rw [if_neg hkm, if_neg hkm, flookup_fset_ne rest n m d h]

/-- Split a relative device path on '/' (`os.path.join` model). -/
def pathComponents (s : String) : List String :=
  (splitOnChar '/' s.data).map String.mk

/-- `os.path.basename`. -/
def baseName (s : String) : String :=
  (pathComponents s).getLastD ""

/-- Resolve a component path below a directory's children. -/
def lookupPath : EntryList → List String → Option Entry
  | _, [] => none
  | fs, [n] => fs.lookup n
  | fs, n :: rest =>
    match fs.lookup n with
    | some (.dir ch) => lookupPath ch rest
    | _ => none

/-- `dump_file` (src/_3dse_core.py lines 347-375).  An existing source
that is a directory makes `shutil.copy2` raise, caught as the generic
dump error. -/
def dump_file (device : EntryList) (source_path_on_sd : String)
    (destination_folder : FlatFs) :
    List ProgressEvent × Bool × String × FlatFs :=
  let file_name := baseName source_path_on_sd
  match lookupPath device (pathComponents source_path_on_sd) with
  | some (.file data) =>
    ([⟨"Starting dump of " ++ file_name ++ "...", 0, "info"⟩,
        ⟨"File \x27" ++ file_name ++ "\x27 successfully dumped.", 100,
          "success"⟩],
      true,
      "File \x27" ++ file_name ++ "\x27 successfully dumped to \x27" ++
        file_name ++ "\x27.",
      fset destination_folder file_name data)
  | some (.dir _) =>
    ([⟨"Starting dump of " ++ file_name ++ "...", 0, "info"⟩,
        ⟨"Error dumping \x27" ++ file_name ++ "\x27: IsADirectoryError", 0,
          "error"⟩],
      false,
      "Error dumping \x27" ++ file_name ++ "\x27: IsADirectoryError",
      destination_folder)
  | none =>
    ([⟨"Starting dump of " ++ file_name ++ "...", 0, "info"⟩,
        ⟨"Error: Source file \x27" ++ file_name ++
          "\x27 not found on SD card.", 0, "error"⟩],
      false,
      "Error: Source file \x27" ++ source_path_on_sd ++ "\x27 not found.",
      destination_folder)

/-- The per-file loop of `_run_dump_in_thread`: every selected file is
attempted with `dump_file` regardless of earlier failures, counting
successes. -/
def dumpBatchAux (device : EntryList) : List String → FlatFs → Nat →
    Nat × FlatFs
  | [], dest, successful => (successful, dest)
  | f :: rest, dest, successful =>
    match dump_file device f dest with
    | (_, ok, _, dest1) =>
      dumpBatchAux device rest dest1 (if ok then successful + 1 else successful)

/-- `_3DSE_App._run_dump_in_thread` (src/gui_app.py lines 437-466):
returns (successful dumps, total, final aggregate message, final host
folder). -/
def run_dump_batch (device : EntryList) (files : List String)
    (dest : FlatFs) : Nat × Nat × String × FlatFs :=
  match dumpBatchAux device files dest 0 with
  | (successful, destF) =>
    (successful, files.length,
      toString successful ++ " of " ++ toString files.length ++
        " files successfully dumped.", destF)

/-- Content of a source path on the device, when it is a regular file. -/
def sourceContent (device : EntryList) (f : String) : Option String :=
  match lookupPath device (pathComponents f) with
  | some (.file d) => some d
  | _ => none

def isFileAt (device : EntryList) (f : String) : Bool :=
  (sourceContent device f).isSome

/-! ## Progress trace predicates -/

def pMonFrom (p : Nat) : List ProgressEvent → Bool
  | [] => true
  | e :: rest => decide (p ≤ e.percent) && pMonFrom e.percent rest

/-- Percentages are monotonic non-decreasing along the trace. -/
def pMon (evs : List ProgressEvent) : Bool := pMonFrom 0 evs

def lastPercent (p : Nat) : List ProgressEvent → Nat
  | [] => p
  | e :: rest => lastPercent e.percent rest

def containsSeverity (evs : List ProgressEvent) (s : String) : Bool :=
  evs.any (fun e => e.severity == s)

def containsPercent (evs : List ProgressEvent) (p : Nat) : Bool :=
  evs.any (fun e => e.percent == p)

def containsPS (evs : List ProgressEvent) (p : Nat) (s : String) : Bool :=
  evs.any (fun e => e.percent == p && e.severity == s)

theorem pMonFrom_append (p : Nat) (xs ys : List ProgressEvent) :
    pMonFrom p (xs ++ ys) =
      (pMonFrom p xs && pMonFrom (lastPercent p xs) ys) := by
  induction xs generalizing p with
  | nil => simp [pMonFrom, lastPercent]
  | cons e rest ih =>
    simp [pMonFrom, lastPercent, ih, Bool.and_assoc]

theorem lastPercent_append (p : Nat) (xs ys : List ProgressEvent) :
    lastPercent p (xs ++ ys) = lastPercent (lastPercent p xs) ys := by
  induction xs generalizing p with
  | nil => rfl
  | cons e rest ih => simp [lastPercent, ih]

theorem chunkEvents_mon (total : Nat) (chunks : List Nat) (d p : Nat)
    (hp : p ≤ 50 * d / total + 10) :
    pMonFrom p (chunkEvents total d chunks) = true := by
  induction chunks generalizing d p with
  | nil => rfl
  | cons c rest ih =>
    rw [chunkEvents]
    by_cases hc : c = 0
    · rw [if_pos hc]; exact ih d p hp
    · rw [if_neg hc]
      by_cases ht : total > 0
      · rw [if_pos ht, pMonFrom]
        have hmono : 50 * d / total ≤ 50 * (d + c) / total :=
          Nat.div_le_div_right (by omega)
        have hle : p ≤ 50 * (d + c) / total + 10 := by omega
        rw [decide_eq_true hle, Bool.true_and]
        exact ih (d + c) _ (le_refl _)
      · rw [if_neg ht]
        have ht0 : total = 0 := by omega
        subst ht0
        exact ih (d + c) p (by simpa using hp)

theorem chunkEvents_last_le (total : Nat) (chunks : List Nat) (d p : Nat)
    (hsum : d + chunks.sum ≤ total ∨ total = 0) (hp : p ≤ 60) :
    lastPercent p (chunkEvents total d chunks) ≤ 60 := by
  induction chunks generalizing d p with
  | nil => simpa [chunkEvents, lastPercent] using hp
  | cons c rest ih =>
    rw [chunkEvents]
    rw [List.sum_cons] at hsum
    by_cases hc : c = 0
    · rw [if_pos hc]
      exact ih d p (by omega) hp
    · rw [if_neg hc]
      by_cases ht : total > 0
      · rw [if_pos ht, lastPercent]
        have hdc : d + c ≤ total := by
          rcases hsum with h | h
          · omega
          · omega
        have hq : 50 * (d + c) / total + 10 ≤ 60 := by
          have h1 : 50 * (d + c) ≤ 50 * total := by omega
          have h2 : 50 * (d + c) / total ≤ 50 * total / total :=
            Nat.div_le_div_right h1
          have h3 : 50 * total / total = 50 := by
            rw [Nat.mul_div_assoc 50 (dvd_refl total), Nat.div_self ht]
          omega
        exact ih (d + c) _ (by omega) hq
      · rw [if_neg ht]
        exact ih (d + c) p (by omega) hp

theorem chunkEvents_percent_le (total : Nat) (chunks : List Nat) (d : Nat)
    (hsum : d + chunks.sum ≤ total ∨ total = 0) :
    ∀ e ∈ chunkEvents total d chunks, e.percent ≤ 60 := by
  induction chunks generalizing d with
  | nil => intro e he; simp [chunkEvents] at he
  | cons c rest ih =>
    rw [chunkEvents]
    rw [List.sum_cons] at hsum
    by_cases hc : c = 0
    · rw [if_pos hc]
      exact ih d (by omega)
    · rw [if_neg hc]
      by_cases ht : total > 0
      · rw [if_pos ht]
        intro e he
        rcases List.mem_cons.mp he with h | h
        · subst h
          show 50 * (d + c) / total + 10 ≤ 60
          have hdc : d + c ≤ total := by
            rcases hsum with h | h
            · omega
            · omega
          have h1 : 50 * (d + c) ≤ 50 * total := by omega
          have h2 : 50 * (d + c) / total ≤ 50 * total / total :=
            Nat.div_le_div_right h1
          have h3 : 50 * total / total = 50 := by
            rw [Nat.mul_div_assoc 50 (dvd_refl total), Nat.div_self ht]
          omega
        · exact ih (d + c) (by omega) e h
      · rw [if_neg ht]
        exact ih (d + c) (by omega)

/-! ## Event structure of the copy phases -/

theorem lumaStepBoot_events (name : String) (pct : Nat) (root tree : EntryList)
    (evs : List ProgressEvent) (r : Except String EntryList)
    (h : lumaStepBoot name pct root tree = (evs, r)) :
    ∃ e, evs = [e] ∧ e.percent = pct := by
  rw [lumaStepBoot] at h
  split at h <;> (injection h with h1 h2; exact ⟨_, h1.symm, rfl⟩)

theorem lumaStepConfig_events (root tree : EntryList)
    (evs : List ProgressEvent) (r : Except String EntryList)
    (h : lumaStepConfig root tree = (evs, r)) :
    ∃ e, evs = [e] ∧ e.percent = 85 := by
  rw [lumaStepConfig] at h
  split at h
  · split at h
    · injection h with h1 h2
      exact ⟨_, h1.symm, rfl⟩
    · injection h with h1 h2
      exact ⟨_, h1.symm, rfl⟩
  · injection h with h1 h2
    exact ⟨_, h1.symm, rfl⟩

theorem lumaCopyPhase_events (root tree : EntryList)
    (evs : List ProgressEvent) (rootF : EntryList)
    (h : lumaCopyPhase root tree = (evs, .ok rootF)) :
    ∃ a b c, evs = [a, b, c] ∧ a.percent = 75 ∧ b.percent = 80 ∧
      c.percent = 85 := by
  rw [lumaCopyPhase] at h
  cases h1 : lumaStepBoot "boot.firm" 75 root tree with
  | mk e1 r1 =>
    rw [h1] at h
    cases r1 with
    | error m =>
      dsimp only [] at h
      injection h with ha hb
      exact Except.noConfusion hb
    | ok root1 =>
      dsimp only [] at h
      cases h2 : lumaStepBoot "boot.3dsx" 80 root1 tree with
      | mk e2 r2 =>
        rw [h2] at h
        cases r2 with
        | error m =>
          dsimp only [] at h
          injection h with ha hb
          exact Except.noConfusion hb
        | ok root2 =>
          dsimp only [] at h
          cases h3 : lumaStepConfig root2 tree with
          | mk e3 r3 =>
            rw [h3] at h
            dsimp only [] at h
            injection h with ha hb
            obtain ⟨a, ha1, hpa⟩ := lumaStepBoot_events _ _ _ _ _ _ h1
            obtain ⟨b, hb1, hpb⟩ := lumaStepBoot_events _ _ _ _ _ _ h2
            obtain ⟨c, hc1, hpc⟩ := lumaStepConfig_events _ _ _ _ h3
            subst ha1
            subst hb1
            subst hc1
            exact ⟨a, b, c, by rw [← ha]; rfl, hpa, hpb, hpc⟩

theorem gm9MergeFold_events : ∀ (src dest : EntryList),
    ∀ e ∈ (gm9MergeFold src dest).1, e = evSkipScripts
  | .nil, dest => by
    intro e he
    simp [gm9MergeFold] at he
  | .cons name en rest, dest => by
    intro e he
    rw [gm9MergeFold] at he
    by_cases hs : name = "scripts"
    · rw [if_pos hs] at he
      cases hfr : gm9MergeFold rest dest with
      | mk evs2 r =>
        rw [hfr] at he
        rcases List.mem_cons.mp he with h | h
        · exact h
        · exact gm9MergeFold_events rest dest e (by rw [hfr]; exact h)
    · rw [if_neg hs] at he
      cases hst : gm9MergeStep dest name en with
      | error m =>
        rw [hst] at he
        simp at he
      | ok dest1 =>
        rw [hst] at he
        exact gm9MergeFold_events rest dest1 e he

theorem gm9CopyPhase_events (root tree : EntryList)
    (evs : List ProgressEvent) (rootF : EntryList)
    (h : gm9CopyPhase root tree = (evs, .ok rootF)) :
    evs = [evCopyFirm] ∨
    ∃ mevs, evs = evCopyFirm :: evUpdGm9 :: mevs ∧
      ∀ e ∈ mevs, e = evSkipScripts := by
  rw [gm9CopyPhase] at h
  split at h
  · injection h with h1 h2
    exact GmPhaseRes.noConfusion h2
  · split at h
    · injection h with h1 h2
      exact GmPhaseRes.noConfusion h2
    · split at h
      · injection h with h1 h2
        exact GmPhaseRes.noConfusion h2
      · dsimp only [] at h
        split at h
        · split at h
          · injection h with h1 h2
            exact GmPhaseRes.noConfusion h2
          · split at h
            · injection h with h1 h2
              exact GmPhaseRes.noConfusion h2
            · rename_i mevs destF hmf
              injection h with h1 h2
              refine Or.inr ⟨mevs, ?_, ?_⟩
              · rw [← h1]
                rfl
              · intro e he
                exact gm9MergeFold_events _ _ e (by rw [hmf]; exact he)
        · injection h with h1 h2
          exact Or.inl h1.symm

theorem pMonFrom_skips (l : List ProgressEvent) :
    ∀ p : Nat, p ≤ 85 → (∀ e ∈ l, e = evSkipScripts) →
    pMonFrom p l = true ∧ lastPercent p l ≤ 85 := by
  induction l with
  | nil => exact fun p hp _ => ⟨rfl, hp⟩
  | cons e rest ih =>
    intro p hp h
    have he : e = evSkipScripts := h e (List.mem_cons_self _ _)
    subst he
    have hrest := ih 85 (le_refl 85)
      (fun e2 he2 => h e2 (List.mem_cons_of_mem _ he2))
    constructor
    · show (decide (p ≤ 85) && pMonFrom 85 rest) = true
      rw [decide_eq_true hp, Bool.true_and]
      exact hrest.1
    · show lastPercent 85 rest ≤ 85
      exact hrest.2

theorem pMon_luma_trace (chunks : List Nat) (total : Nat)
    (evs : List ProgressEvent) (a b c : ProgressEvent)
    (hsum : chunks.sum ≤ total ∨ total = 0)
    (hevs : evs = [a, b, c]) (hpa : a.percent = 75) (hpb : b.percent = 80)
    (hpc : c.percent = 85) :
    pMon ([evStartLuma, evDlLuma] ++ chunkEvents total 0 chunks ++
      [evGotLuma, evExtLuma] ++ evs ++ [evDoneLuma]) = true := by
  subst hevs
  have h10 : (10 : Nat) ≤ 50 * 0 / total + 10 := by simp
  have hmonCE : pMonFrom 10 (chunkEvents total 0 chunks) = true :=
    chunkEvents_mon total chunks 0 10 h10
  have hlast : lastPercent 10 (chunkEvents total 0 chunks) ≤ 60 :=
    chunkEvents_last_le total chunks 0 10
      (by rcases hsum with h | h
          · exact Or.inl (by omega)
          · exact Or.inr h)
      (by omega)
  simp only [List.append_assoc, List.cons_append, List.nil_append]
  rw [pMon]
  rw [show ∀ l, pMonFrom 0 (evStartLuma :: evDlLuma :: l) = pMonFrom 10 l
    from fun l => rfl]
  rw [pMonFrom_append, hmonCE, Bool.true_and]
  simp only [pMonFrom]
  rw [hpa, hpb, hpc]
  simp [decide_eq_true_eq, hlast, lastPercent, evGotLuma, evExtLuma,
    evDoneLuma]

theorem pMon_gm9_trace (chunks : List Nat) (total : Nat)
    (evs : List ProgressEvent)
    (hsum : chunks.sum ≤ total ∨ total = 0)
    (hevs : evs = [evCopyFirm] ∨
      ∃ mevs, evs = evCopyFirm :: evUpdGm9 :: mevs ∧
        ∀ e ∈ mevs, e = evSkipScripts) :
    pMon ([evStartGm9, evDlGm9] ++ chunkEvents total 0 chunks ++
      [evGotGm9, evExtGm9] ++ evs ++ [evDoneGm9]) = true := by
  have h10 : (10 : Nat) ≤ 50 * 0 / total + 10 := by simp
  have hmonCE : pMonFrom 10 (chunkEvents total 0 chunks) = true :=
    chunkEvents_mon total chunks 0 10 h10
  have hlast : lastPercent 10 (chunkEvents total 0 chunks) ≤ 60 :=
    chunkEvents_last_le total chunks 0 10
      (by rcases hsum with h | h
          · exact Or.inl (by omega)
          · exact Or.inr h)
      (by omega)
  simp only [List.append_assoc, List.cons_append, List.nil_append]
  rw [pMon]
  rw [show ∀ l, pMonFrom 0 (evStartGm9 :: evDlGm9 :: l) = pMonFrom 10 l
    from fun l => rfl]
  rw [pMonFrom_append, hmonCE, Bool.true_and]
  rcases hevs with h | ⟨mevs, hevs, hskips⟩
  · subst h
    simp only [pMonFrom]
    simp [decide_eq_true_eq, hlast, lastPercent, evGotGm9, evExtGm9,
      evCopyFirm, evDoneGm9]
  · subst hevs
    simp only [List.cons_append]
    rw [show ∀ l, pMonFrom (lastPercent 10 (chunkEvents total 0 chunks))
        (evGotGm9 :: evExtGm9 :: evCopyFirm :: evUpdGm9 :: l) =
        (decide (lastPercent 10 (chunkEvents total 0 chunks) ≤ 60) &&
          pMonFrom 80 l)
      from fun l => rfl]
    rw [decide_eq_true hlast, Bool.true_and, pMonFrom_append]
    have hsk := pMonFrom_skips mevs 80 (by omega) hskips
    rw [hsk.1, Bool.true_and]
    show (decide (lastPercent 80 mevs ≤ 100) && true) = true
    rw [decide_eq_true (by omega), Bool.true_and]

theorem containsPercent_false (l : List ProgressEvent)
    (h : ∀ e ∈ l, e.percent ≠ 100) : containsPercent l 100 = false := by
  rw [containsPercent, List.any_eq_false]
  intro e he
  simp only [beq_iff_eq]
  exact h e he

/-- C6 counterexample: on the network-failure path the Luma update emits
the percents 0, 10, 0 - not monotonic non-decreasing, although this is an
execution path of a long operation. -/
theorem progress_monotone_counterexample :
    (download_and_inject_luma_update .nil (.netError "x") [] 0).2.1 =
      false ∧
    pMon (download_and_inject_luma_update .nil (.netError "x") [] 0).1 =
      false :=
  ⟨rfl, rfl⟩

/-- C6 (amended): within one invocation the emitted percentages are
monotonic non-decreasing on every execution path that returns success
(given that the received bytes do not exceed a positive advertised content
length) and on every `dump_file` path; on failure paths of the two update
executors the final `error` event carries percent 0, which can be lower
than previously emitted percentages. -/
theorem progress_monotone (root : EntryList) (dl : DownloadResult)
    (chunks : List Nat) (total : Nat) (device : EntryList) (f : String)
    (dest : FlatFs) (hsum : chunks.sum ≤ total ∨ total = 0) :
    ((download_and_inject_luma_update root dl chunks total).2.1 = true →
      pMon (download_and_inject_luma_update root dl chunks total).1 =
        true) ∧
    ((download_and_inject_gm9_update root dl chunks total).2.1 = true →
      pMon (download_and_inject_gm9_update root dl chunks total).1 =
        true) ∧
    pMon (dump_file device f dest).1 = true := by
  refine ⟨?_, ?_, ?_⟩
  · intro hok
    cases dl with
    | netError e => simp [download_and_inject_luma_update] at hok
    | badZip => simp [download_and_inject_luma_update] at hok
    | ok tree =>
      rw [download_and_inject_luma_update] at hok ⊢
      cases hph : lumaCopyPhase root tree with
      | mk evs r =>
        rw [hph] at hok
        cases r with
        | error m => simp at hok
        | ok rootF =>
          obtain ⟨a, b, c, hevs, hpa, hpb, hpc⟩ :=
            lumaCopyPhase_events root tree evs rootF hph
          exact pMon_luma_trace chunks total evs a b c hsum hevs hpa hpb hpc
  · intro hok
    cases dl with
    | netError e => simp [download_and_inject_gm9_update] at hok
    | badZip => simp [download_and_inject_gm9_update] at hok
    | ok tree =>
      rw [download_and_inject_gm9_update] at hok ⊢
      cases hph : gm9CopyPhase root tree with
      | mk evs r =>
        rw [hph] at hok
        cases r with
        | missingFirm => simp at hok
        | exn m => simp at hok
        | ok rootF =>
          exact pMon_gm9_trace chunks total evs hsum
            (gm9CopyPhase_events root tree evs rootF hph)
  · rw [dump_file]
    cases hl : lookupPath device (pathComponents f) with
    | none => rfl
    | some e =>
      cases e with
      | file d => rfl
      | dir ch => rfl

theorem progress_monotone_witness :
    pMon (download_and_inject_luma_update .nil (.ok .nil) [] 0).1 = true :=
  (progress_monotone .nil (.ok .nil) [] 0 .nil "f" [] (Or.inr rfl)).1 rfl

/-- C4 counterexample: when GodMode9.firm is absent from the extracted
archive, `download_and_inject_gm9_update` returns failure (with the
missing-file message) without emitting any progress event of severity
'error'. -/
theorem gm9_missing_firm_no_error_event :
    (download_and_inject_gm9_update .nil
      (.ok (.cons "foo" (.file "x") .nil)) [] 0).2.1 = false ∧
    containsSeverity (download_and_inject_gm9_update .nil
      (.ok (.cons "foo" (.file "x") .nil)) [] 0).1 "error" = false ∧
    (download_and_inject_gm9_update .nil
      (.ok (.cons "foo" (.file "x") .nil)) [] 0).2.2.1 =
      gm9FirmMissingMsg :=
  ⟨rfl, rfl, rfl⟩

/-- C4 (amended): every failure return of the Luma executor is preceded by
an 'error' progress event; every failure return of the GodMode9 executor is
preceded by an 'error' progress event except the required-file early
return, which returns failure carrying the GodMode9.firm-missing message
but emits no error event. -/
theorem failure_emits_error_event (root : EntryList) (dl : DownloadResult)
    (chunks : List Nat) (total : Nat) :
    ((download_and_inject_luma_update root dl chunks total).2.1 = false →
      containsSeverity
        (download_and_inject_luma_update root dl chunks total).1 "error" =
        true) ∧
    ((download_and_inject_gm9_update root dl chunks total).2.1 = false →
      containsSeverity
        (download_and_inject_gm9_update root dl chunks total).1 "error" =
        true ∨
      (download_and_inject_gm9_update root dl chunks total).2.2.1 =
        gm9FirmMissingMsg) := by
  constructor
  · intro hf
    cases dl with
    | netError e => rfl
    | badZip => simp [download_and_inject_luma_update, containsSeverity]
    | ok tree =>
      rw [download_and_inject_luma_update] at hf ⊢
      cases hph : lumaCopyPhase root tree with
      | mk evs r =>
        rw [hph] at hf
        cases r with
        | ok rootF => simp at hf
        | error m => simp [containsSeverity]
  · intro hf
    cases dl with
    | netError e => exact Or.inl rfl
    | badZip =>
      exact Or.inl (by simp [download_and_inject_gm9_update, containsSeverity])
    | ok tree =>
      rw [download_and_inject_gm9_update] at hf ⊢
      cases hph : gm9CopyPhase root tree with
      | mk evs r =>
        rw [hph] at hf
        cases r with
        | ok rootF => simp at hf
        | missingFirm => exact Or.inr rfl
        | exn m => exact Or.inl (by simp [containsSeverity])

theorem failure_emits_error_event_witness :
    containsSeverity (download_and_inject_luma_update .nil (.netError "x")
      [] 0).1 "error" = true :=
  (failure_emits_error_event .nil (.netError "x") [] 0).1 rfl

theorem lumaStepBoot_absent (name : String) (pct : Nat)
    (root tree : EntryList) (h : tree.lookup name = none) :
    ∃ e, lumaStepBoot name pct root tree = ([e], .ok root) ∧
      e.severity = "warning" := by
  rw [lumaStepBoot, h]
  exact ⟨_, rfl, rfl⟩

/-- C5: if an optional top-level file (boot.firm or boot.3dsx) is absent
from the extracted Luma archive (and the rest of the copy phase succeeds),
the operation emits a warning event yet returns success and emits the 100%
success event; if GodMode9.firm is absent from the whole extracted tree,
the GodMode9 operation returns failure and emits no event at 100%. -/
theorem optional_vs_required (root tree : EntryList) (chunks : List Nat)
    (total : Nat) :
    ((tree.lookup "boot.firm" = none ∨ tree.lookup "boot.3dsx" = none) →
      ∀ evs rootF, lumaCopyPhase root tree = (evs, .ok rootF) →
      (download_and_inject_luma_update root (.ok tree) chunks
        total).2.1 = true ∧
      containsSeverity (download_and_inject_luma_update root (.ok tree)
        chunks total).1 "warning" = true ∧
      containsPS (download_and_inject_luma_update root (.ok tree) chunks
        total).1 100 "success" = true) ∧
    (findFirm tree = none → (chunks.sum ≤ total ∨ total = 0) →
      (download_and_inject_gm9_update root (.ok tree) chunks
        total).2.1 = false ∧
      containsPercent (download_and_inject_gm9_update root (.ok tree)
        chunks total).1 100 = false) := by
  constructor
  · intro habs evs rootF hph
    have hph0 := hph
    refine ⟨?_, ?_, ?_⟩
    · rw [download_and_inject_luma_update, hph0]
    · rw [download_and_inject_luma_update, hph0]
      rcases habs with habs | habs
      · obtain ⟨w, hstep, hsev⟩ :=
          lumaStepBoot_absent "boot.firm" 75 root tree habs
        rw [lumaCopyPhase, hstep] at hph
        dsimp only [] at hph
        split at hph
        · injection hph with h1 h2
          exact Except.noConfusion h2
        · injection hph with h1 h2
          rw [← h1]
          simp [containsSeverity, hsev]
      · rw [lumaCopyPhase] at hph
        cases h1 : lumaStepBoot "boot.firm" 75 root tree with
        | mk e1 r1 =>
          rw [h1] at hph
          cases r1 with
          | error m =>
            dsimp only [] at hph
            injection hph with ha hb
            exact Except.noConfusion hb
          | ok root1 =>
            dsimp only [] at hph
            obtain ⟨w, hstep, hsev⟩ :=
              lumaStepBoot_absent "boot.3dsx" 80 root1 tree habs
            rw [hstep] at hph
            dsimp only [] at hph
            cases h3 : lumaStepConfig root1 tree with
            | mk e3 r3 =>
              rw [h3] at hph
              dsimp only [] at hph
              injection hph with ha hb
              rw [← ha]
              simp [containsSeverity, hsev]
    · rw [download_and_inject_luma_update, hph0]
      simp [containsPS, evDoneLuma]
  · intro hff hsum
    have hCE : ∀ e ∈ chunkEvents total 0 chunks, e.percent ≠ 100 := by
      intro e he
      have := chunkEvents_percent_le total chunks 0
        (by rcases hsum with h | h
            · exact Or.inl (by omega)
            · exact Or.inr h) e he
      omega
    rw [download_and_inject_gm9_update]
    cases hph : gm9CopyPhase root tree with
    | mk evs r =>
      rw [gm9CopyPhase] at hph
      split at hph
      · injection hph with h1 h2
        subst h1
        subst h2
        refine ⟨rfl, ?_⟩
        apply containsPercent_false
        intro e he
        simp only [List.append_assoc, List.cons_append, List.nil_append,
          List.append_nil, List.not_mem_nil, or_false, List.mem_cons,
          List.mem_append] at he
        rcases he with h | h | h | h | h | h
        · subst h; exact (by decide : (0 : Nat) ≠ 100)
        · subst h; exact (by decide : (10 : Nat) ≠ 100)
        · exact hCE e h
        · subst h; exact (by decide : (60 : Nat) ≠ 100)
        · subst h; exact (by decide : (70 : Nat) ≠ 100)
        · subst h; exact (by decide : (0 : Nat) ≠ 100)
      · rw [hff] at hph
        injection hph with h1 h2
        subst h1
        subst h2
        refine ⟨rfl, ?_⟩
        apply containsPercent_false
        intro e he
        simp only [List.append_assoc, List.cons_append, List.nil_append,
          List.append_nil, List.not_mem_nil, or_false, List.mem_cons,
          List.mem_append] at he
        rcases he with h | h | h | h | h
        · subst h; exact (by decide : (0 : Nat) ≠ 100)
        · subst h; exact (by decide : (10 : Nat) ≠ 100)
        · exact hCE e h
        · subst h; exact (by decide : (60 : Nat) ≠ 100)
        · subst h; exact (by decide : (70 : Nat) ≠ 100)

theorem optional_vs_required_witness :
    ((download_and_inject_luma_update .nil (.ok .nil) [] 0).2.1 = true ∧
      containsSeverity (download_and_inject_luma_update .nil (.ok .nil)
        [] 0).1 "warning" = true ∧
      containsPS (download_and_inject_luma_update .nil (.ok .nil)
        [] 0).1 100 "success" = true) ∧
    ((download_and_inject_luma_update .nil
        (.ok (.cons "boot.firm" (.file "F") .nil)) [] 0).2.1 = true ∧
      containsSeverity (download_and_inject_luma_update .nil
        (.ok (.cons "boot.firm" (.file "F") .nil)) [] 0).1 "warning" =
        true ∧
      containsPS (download_and_inject_luma_update .nil
        (.ok (.cons "boot.firm" (.file "F") .nil)) [] 0).1 100
        "success" = true) ∧
    ((download_and_inject_gm9_update .nil
        (.ok (.cons "foo" (.file "x") .nil)) [] 0).2.1 = false ∧
      containsPercent (download_and_inject_gm9_update .nil
        (.ok (.cons "foo" (.file "x") .nil)) [] 0).1 100 = false) :=
  ⟨(optional_vs_required .nil .nil [] 0).1 (Or.inl rfl)
      [⟨"Warning: \x27boot.firm\x27 not found in extracted Luma archive.",
          75, "warning"⟩,
        ⟨"Warning: \x27boot.3dsx\x27 not found in extracted Luma archive.",
          80, "warning"⟩,
        ⟨"Warning: Luma/config folder not found in release.", 85,
          "warning"⟩] .nil rfl,
    (optional_vs_required .nil (.cons "boot.firm" (.file "F") .nil)
        [] 0).1 (Or.inr rfl)
      [⟨"Copying boot.firm...", 75, "info"⟩,
        ⟨"Warning: \x27boot.3dsx\x27 not found in extracted Luma archive.",
          80, "warning"⟩,
        ⟨"Warning: Luma/config folder not found in release.", 85,
          "warning"⟩] (.cons "boot.firm" (.file "F") .nil) rfl,
    (optional_vs_required .nil (.cons "foo" (.file "x") .nil) [] 0).2
      rfl (Or.inr rfl)⟩

/-! ## Dump batch aggregation (claim C9) -/

theorem dump_file_flag (device : EntryList) (f : String) (dest : FlatFs) :
    (dump_file device f dest).2.1 = isFileAt device f := by
  rw [dump_file, isFileAt, sourceContent]
  cases hl : lookupPath device (pathComponents f) with
  | none => rfl
  | some e =>
    cases e with
    | file d => rfl
    | dir ch => rfl

theorem dump_file_dest_other (device : EntryList) (f : String)
    (dest : FlatFs) (b : String) (hb : b ≠ baseName f) :
    flookup (dump_file device f dest).2.2.2 b = flookup dest b := by
  rw [dump_file]
  cases hl : lookupPath device (pathComponents f) with
  | none => rfl
  | some e =>
    cases e with
    | file d => exact flookup_fset_ne dest (baseName f) b d hb
    | dir ch => rfl

theorem dump_file_dest_self (device : EntryList) (f : String)
    (dest : FlatFs) (d : String) (h : sourceContent device f = some d) :
    (dump_file device f dest).2.2.2 = fset dest (baseName f) d := by
  rw [dump_file]
  rw [sourceContent] at h
  cases hl : lookupPath device (pathComponents f) with
  | none =>
    rw [hl] at h
    exact Option.noConfusion h
  | some e =>
    cases e with
    | file d2 =>
      rw [hl] at h
      injection h with h
      subst h
      rfl
    | dir ch =>
      rw [hl] at h
      exact Option.noConfusion h

theorem dumpBatchAux_count (device : EntryList) :
    ∀ (files : List String) (dest : FlatFs) (acc : Nat),
      (dumpBatchAux device files dest acc).1 =
        acc + files.countP (fun f => isFileAt device f)
  | [], dest, acc => by simp [dumpBatchAux]
  | f :: rest, dest, acc => by
    rw [dumpBatchAux]
    cases hdf : dump_file device f dest with
    | mk evs r2 =>
      cases r2 with
      | mk ok r3 =>
        cases r3 with
        | mk msg dest1 =>
          have hfl : ok = isFileAt device f := by
            rw [← dump_file_flag device f dest, hdf]
          show (dumpBatchAux device rest dest1
            (if ok then acc + 1 else acc)).1 = _
          rw [dumpBatchAux_count device rest dest1 _, hfl,
            List.countP_cons]
          cases hok : isFileAt device f with
          | true => simp [hok]; omega
          | false => simp [hok]

theorem dumpBatchAux_preserve (device : EntryList) :
    ∀ (files : List String) (dest : FlatFs) (acc : Nat) (b : String),
      (∀ g ∈ files, baseName g ≠ b) →
      flookup (dumpBatchAux device files dest acc).2 b = flookup dest b
  | [], _, _, _, _ => rfl
  | f :: rest, dest, acc, b, h => by
    rw [dumpBatchAux]
    cases hdf : dump_file device f dest with
    | mk evs r2 =>
      cases r2 with
      | mk ok r3 =>
        cases r3 with
        | mk msg dest1 =>
          show flookup (dumpBatchAux device rest dest1
            (if ok then acc + 1 else acc)).2 b = _
          rw [dumpBatchAux_preserve device rest dest1 _ b
            (fun g hg => h g (List.mem_cons_of_mem _ hg))]
          have h2 := dump_file_dest_other device f dest b
            (fun hb => h f (List.mem_cons_self _ _) hb.symm)
          rw [hdf] at h2
          exact h2

theorem dumpBatchAux_delivers (device : EntryList) :
    ∀ (files : List String) (dest : FlatFs) (acc : Nat) (f d : String),
      (files.map baseName).Nodup → f ∈ files →
      sourceContent device f = some d →
      flookup (dumpBatchAux device files dest acc).2 (baseName f) = some d
  | [], _, _, f, _, _, hmem, _ => absurd hmem (List.not_mem_nil f)
  | g :: rest, dest, acc, f, d, hnd, hmem, hsc => by
    rw [List.map_cons, List.nodup_cons] at hnd
    rw [dumpBatchAux]
    cases hdf : dump_file device g dest with
    | mk evs r2 =>
      cases r2 with
      | mk ok r3 =>
        cases r3 with
        | mk msg dest1 =>
          show flookup (dumpBatchAux device rest dest1
            (if ok then acc + 1 else acc)).2 (baseName f) = some d
          rcases List.mem_cons.mp hmem with hfg | hfr
          · subst hfg
            have hd1 : dest1 = fset dest (baseName f) d := by
              have hds := dump_file_dest_self device f dest d hsc
              rw [hdf] at hds
              exact hds
            rw [dumpBatchAux_preserve device rest dest1 _ (baseName f)
              (fun g2 hg2 hb =>
                hnd.1 (hb ▸ List.mem_map_of_mem baseName hg2))]
            rw [hd1]
            exact flookup_fset_self dest (baseName f) d
          · exact dumpBatchAux_delivers device rest dest1 _ f d
              hnd.2 hfr hsc

/-- C9: in a dump batch every selected file is attempted independently of
earlier failures: the reported total is the number of selected files, the
reported success count is the number of files whose source exists on the
device, the aggregate message reports "count of total", and every selected
file whose source exists ends up at the destination with the source's
content (assuming the selected files have distinct base names, as the
fixed dump list does). -/
theorem dump_batch_independent (device : EntryList) (files : List String)
    (dest : FlatFs) (hnd : (files.map baseName).Nodup) :
    (run_dump_batch device files dest).2.1 = files.length ∧
    (run_dump_batch device files dest).1 =
      files.countP (fun f => isFileAt device f) ∧
    (run_dump_batch device files dest).2.2.1 =
      toString (files.countP (fun f => isFileAt device f)) ++ " of " ++
        toString files.length ++ " files successfully dumped." ∧
    (∀ f d, f ∈ files → sourceContent device f = some d →
      flookup (run_dump_batch device files dest).2.2.2 (baseName f) =
        some d) := by
  rw [run_dump_batch]
  cases hb : dumpBatchAux device files dest 0 with
  | mk succ destF =>
    have hcount : succ = files.countP (fun f => isFileAt device f) := by
      have hc := dumpBatchAux_count device files dest 0
      rw [hb] at hc
      simpa using hc
    refine ⟨rfl, hcount, ?_, ?_⟩
    · show toString succ ++ " of " ++ toString files.length ++
        " files successfully dumped." = _
      rw [hcount]
    · intro f d hmem hsc
      have hdel := dumpBatchAux_delivers device files dest 0 f d hnd hmem hsc
      rw [hb] at hdel
      exact hdel

theorem dump_batch_independent_witness :
    (run_dump_batch
        (.cons "boot9strap" (.dir (.cons "firm0_enc.bak" (.file "X") .nil))
          (.cons "b" (.file "Y") .nil))
        ["boot9strap/firm0_enc.bak", "b", "c/missing.bin"] []).2.1 = 3 ∧
    (run_dump_batch
        (.cons "boot9strap" (.dir (.cons "firm0_enc.bak" (.file "X") .nil))
          (.cons "b" (.file "Y") .nil))
        ["boot9strap/firm0_enc.bak", "b", "c/missing.bin"] []).1 = 2 ∧
    (run_dump_batch
        (.cons "boot9strap" (.dir (.cons "firm0_enc.bak" (.file "X") .nil))
          (.cons "b" (.file "Y") .nil))
        ["boot9strap/firm0_enc.bak", "b", "c/missing.bin"] []).2.2.1 =
      "2 of 3 files successfully dumped." ∧
    flookup (run_dump_batch
        (.cons "boot9strap" (.dir (.cons "firm0_enc.bak" (.file "X") .nil))
          (.cons "b" (.file "Y") .nil))
        ["boot9strap/firm0_enc.bak", "b", "c/missing.bin"] []).2.2.2
      "firm0_enc.bak" = some "X" ∧
    flookup (run_dump_batch
        (.cons "boot9strap" (.dir (.cons "firm0_enc.bak" (.file "X") .nil))
          (.cons "b" (.file "Y") .nil))
        ["boot9strap/firm0_enc.bak", "b", "c/missing.bin"] []).2.2.2
      "b" = some "Y" := by
  have h := dump_batch_independent
    (.cons "boot9strap" (.dir (.cons "firm0_enc.bak" (.file "X") .nil))
      (.cons "b" (.file "Y") .nil))
    ["boot9strap/firm0_enc.bak", "b", "c/missing.bin"] [] (by decide)
  exact ⟨h.1, h.2.1, h.2.2.1,
    h.2.2.2 "boot9strap/firm0_enc.bak" "X" (by decide) rfl,
    h.2.2.2 "b" "Y" (by decide) rfl⟩

end ThreeDSE
